import Mathlib

/-!
Shallow embedding of the story-graph engine in `src/app.py` (class
`EnhancedStoryAgent`, the Streamlit session-state handlers, and the
achievement-extraction snippet), together with proofs settling the
frozen claims about it.

Python dictionaries are modelled as association lists in insertion
order with unique-key discipline maintained by `dictInsert` (assignment
keeps an existing key's position and appends a new key), matching
CPython's dict semantics.  A Python method that can raise is modelled
as a function returning `Option`/a result inductive; where the source
mutates state before the raising expression is evaluated, the error
constructor carries the partially mutated state.
-/

/-- Python-dict lookup `d[k]`: the entry of the (unique) matching key;
`none` models a raised `KeyError`. -/
def dictGet? {α : Type} (d : List (String × α)) (k : String) : Option α :=
  match d with
  | [] => none
  | (k1, v) :: rest => if k1 = k then some v else dictGet? rest k

/-- Python-dict assignment `d[k] = v`: overwriting an existing key keeps
its position in insertion order; a new key is appended at the end. -/
def dictInsert {α : Type} (d : List (String × α)) (k : String) (v : α) : List (String × α) :=
  match d with
  | [] => [(k, v)]
  | (k1, v1) :: rest => if k1 = k then (k1, v) :: rest else (k1, v1) :: dictInsert rest k v

/-- Opaque passthrough payload for the `metadata` field (the engine never
interprets it, so any concrete carrier works; we use a string map). -/
abbrev Meta : Type := List (String × String)

/-- The `StoryNode` dataclass of `src/app.py` (lines 13-20). -/
structure StoryNode where
  id : String
  text : String
  choices : List (String × String)
  metadata : Meta
  image_prompt : String
  mood : String
deriving DecidableEq

/-- A map-shaped node entry of an import definition: a JSON-style object
whose recognised fields are all optional (`none` models an absent key).
The key `imagePrompt` is representable separately from `image_prompt`
because the import format allows either spelling. -/
structure NodeDef where
  text? : Option String
  choices? : Option (List (String × String))
  metadata? : Option Meta
  image_prompt? : Option String
  imagePrompt? : Option String
  mood? : Option String
deriving DecidableEq

/-- A value of a definition entry: either a map-shaped node object or
anything else (a non-map value, on which `node.get(...)` raises
`AttributeError` in the source). -/
inductive PyVal where
  | pnode (n : NodeDef)
  | pother
deriving DecidableEq

/-- A Python key of the definition dict: the constructor (line 23) can be
handed a dict with non-string keys, which `load_tree` coerces with
`str(...)`; we model string and int keys, enough to express the coercion. -/
inductive PyKey where
  | kStr (s : String)
  | kInt (n : Int)
deriving DecidableEq

/-- Python `str(k)` on a definition key. -/
def pyStr : PyKey → String
  | .kStr s => s
  | .kInt n => toString n

/-- A graph definition as passed to `load_tree`: the entries of a Python
dict in insertion order. -/
abbrev StoryTree : Type := List (PyKey × PyVal)

/-- The `EnhancedStoryAgent` instance state (lines 22-28). -/
structure EnhancedStoryAgent where
  story_nodes : List (String × StoryNode)
  root_id : Option String
  achievements : List (String × Bool)
deriving DecidableEq

/-- The `StoryNode(...)` construction inside `load_tree` (lines 33-40):
each recognised field read with `node.get(key, default)`.  Note the
source reads only the key `"image_prompt"`, never `"imagePrompt"`. -/
def buildNode (nid : String) (n : NodeDef) : StoryNode :=
  { id := nid
  , text := n.text?.getD ""
  , choices := n.choices?.getD []
  , metadata := n.metadata?.getD []
  , image_prompt := n.image_prompt?.getD ""
  , mood := n.mood?.getD "neutral" }

/-- Outcome of the node-building loop of `load_tree`: `done` with the
rebuilt dict, or `failed` with the dict as mutated up to the entry whose
value was not map-shaped (where `node.get` raises `AttributeError`). -/
inductive LoopRes where
  | done (nodes : List (String × StoryNode))
  | failed (nodes : List (String × StoryNode))
deriving DecidableEq

/-- The `for nid, node in tree.items()` loop of `load_tree` (lines 32-41),
started from the freshly cleared `self.story_nodes = {}` (line 31). -/
def loadLoop (acc : List (String × StoryNode)) : StoryTree → LoopRes
  | [] => .done acc
  | (nid, .pnode n) :: rest => loadLoop (dictInsert acc (pyStr nid) (buildNode (pyStr nid) n)) rest
  | (_, .pother) :: _ => .failed acc

/-- Python `"start" in tree` (line 42): dict-key membership against the
original (uncoerced) keys; only the string key `"start"` compares equal. -/
def treeHasKey (tree : StoryTree) (k : String) : Bool :=
  tree.any (fun p => p.1 = PyKey.kStr k)

/-- Result of `load_tree`: `ok` with the updated agent, or `errMalformed`
carrying the agent as left behind by the raised `AttributeError`
(`story_nodes` already cleared and partially refilled, `root_id` stale). -/
inductive LoadRes where
  | ok (a : EnhancedStoryAgent)
  | errMalformed (a : EnhancedStoryAgent)
deriving DecidableEq

/-- `EnhancedStoryAgent.load_tree` (lines 30-42).  The source clears
`self.story_nodes` first, rebuilds it entry by entry, and only after the
loop recomputes `self.root_id` as
`"start" if "start" in tree else next(iter(self.story_nodes)) if self.story_nodes else None`. -/
def load_tree (a : EnhancedStoryAgent) (tree : StoryTree) : LoadRes :=
  match loadLoop [] tree with
  | .failed nodes => .errMalformed { a with story_nodes := nodes }
  | .done nodes =>
      let root : Option String :=
        if treeHasKey tree "start" then some "start"
        else
          match nodes with
          | [] => none
          | (k, _) :: _ => some k
      .ok { a with story_nodes := nodes, root_id := root }

/-- `EnhancedStoryAgent.get_node` (lines 44-45): a raw dict lookup; `none`
models the `KeyError` on an absent id (the `NodeNotFound` of the spec). -/
def get_node (a : EnhancedStoryAgent) (node_id : String) : Option StoryNode :=
  dictGet? a.story_nodes node_id

/-- `EnhancedStoryAgent.link_choice` (lines 59-60):
`self.story_nodes[from_id].choices[choice_text] = to_id`.  The lookup of
`from_id` raises `KeyError` when absent (`none`); on success the node's
choices dict gets the assignment, the node keeping its place. -/
def link_choice (a : EnhancedStoryAgent) (from_id choice_text to_id : String) :
    Option EnhancedStoryAgent :=
  match dictGet? a.story_nodes from_id with
  | none => none
  | some node =>
      let updated : StoryNode := { node with choices := dictInsert node.choices choice_text to_id }
      some { a with story_nodes := dictInsert a.story_nodes from_id updated }

/-- The per-node export object built by `export_tree` (lines 65-71): all
five fields present, `imagePrompt` spelling never produced. -/
def exportNodeDef (node : StoryNode) : NodeDef :=
  { text? := some node.text
  , choices? := some node.choices
  , metadata? := some node.metadata
  , image_prompt? := some node.image_prompt
  , imagePrompt? := none
  , mood? := some node.mood }

/-- `EnhancedStoryAgent.export_tree` (lines 62-72): one output entry per
stored node, in the dict's iteration (= insertion) order; keys of
`self.story_nodes` are unique, so each assignment `out[nid] = ...`
appends a fresh key. -/
def export_tree (a : EnhancedStoryAgent) : List (String × PyVal) :=
  a.story_nodes.map (fun p => (p.1, PyVal.pnode (exportNodeDef p.2)))

/-- A JSON round trip turns the exported dict back into a definition whose
keys are the same strings. -/
def asTree (d : List (String × PyVal)) : StoryTree :=
  d.map (fun p => (PyKey.kStr p.1, p.2))

/-- The Streamlit per-session traversal state (lines 336-344):
`progress` (history of node ids), `current_node`, `story_text`
(visited texts), `achievements` (a set of names), `choices_made`. -/
structure SessionState where
  progress : List String
  current_node : String
  story_text : List String
  achievements : List String
  choices_made : Int
deriving DecidableEq

/-- Session initialisation (lines 336-344, identically the Restart handler
at lines 351-357): fails (`none`, a raised exception) when the agent has
no root id or the root id has no node. -/
def initSession (a : EnhancedStoryAgent) : Option SessionState :=
  match a.root_id with
  | none => none
  | some rid =>
      match get_node a rid with
      | none => none
      | some root =>
          some { progress := [rid]
               , current_node := rid
               , story_text := [root.text]
               , achievements := []
               , choices_made := 0 }

/-- Outcome of pressing a choice button (lines 529-538). `noButton`: the
label is not among the current node's choices (no such button is
rendered) or the current node id itself is absent.  `dangling` carries
the session state at the moment `agent.get_node(child_id)` raises
`KeyError`: `progress` and `current_node` are already mutated,
`story_text` and `choices_made` are not. -/
inductive ChooseRes where
  | ok (s : SessionState)
  | dangling (s : SessionState)
  | noButton
deriving DecidableEq

/-- The choice-button handler (lines 526-538): the button for `label`
carries `child_id = current.choices[label]`; the handler then runs
`progress.append(child_id)`, `current_node = child_id`,
`story_text.append(agent.get_node(child_id).text)`, `choices_made += 1`,
in that order. -/
def chooseHandler (a : EnhancedStoryAgent) (s : SessionState) (label : String) : ChooseRes :=
  match get_node a s.current_node with
  | none => .noButton
  | some node =>
      match dictGet? node.choices label with
      | none => .noButton
      | some child_id =>
          match get_node a child_id with
          | none => .dangling { s with progress := s.progress ++ [child_id]
                                     , current_node := child_id }
          | some child =>
              .ok { s with progress := s.progress ++ [child_id]
                         , current_node := child_id
                         , story_text := s.story_text ++ [child.text]
                         , choices_made := s.choices_made + 1 }

/-- Outcome of the undo button (lines 362-371): either the last step was
undone, or the handler reported "Nothing to undo" (a warning, not an
error) leaving the state alone. -/
inductive UndoRes where
  | undone (s : SessionState)
  | nothingToUndo (s : SessionState)
deriving DecidableEq

/-- The undo-button handler (lines 362-371): guarded by
`len(progress) > 1`; pops `progress`, re-reads `progress[-1]` as the new
current node, truncates `story_text`, decrements `choices_made`. -/
def undoHandler (s : SessionState) : UndoRes :=
  if h : 1 < s.progress.length then
    .undone { s with
      progress := s.progress.dropLast
      , current_node := s.progress.dropLast.getLast (by
          intro hnil
          have hlen := List.length_dropLast s.progress
          rw [hnil] at hlen
          simp only [List.length_nil] at hlen
          omega)
      , story_text := s.story_text.dropLast
      , choices_made := s.choices_made - 1 }
  else .nothingToUndo s

/-- One user interaction of the traversal session. -/
inductive SessionOp where
  | chooseOp (label : String)
  | undoOp
deriving DecidableEq

/-- Apply one interaction, keeping only non-error outcomes: a choice that
lands on an existing node, or an undo (including the boundary
"nothing to undo" report, which is a non-error no-op). -/
def applyOp (a : EnhancedStoryAgent) (s : SessionState) : SessionOp → Option SessionState
  | .chooseOp label =>
      match chooseHandler a s label with
      | .ok s2 => some s2
      | .dangling _ => none
      | .noButton => none
  | .undoOp =>
      match undoHandler s with
      | .undone s2 => some s2
      | .nothingToUndo s2 => some s2

/-- Apply a whole sequence of interactions, all of them successful. -/
def applyOps (a : EnhancedStoryAgent) (s : SessionState) : List SessionOp → Option SessionState
  | [] => some s
  | op :: rest =>
      match applyOp a s op with
      | none => none
      | some s2 => applyOps a s2 rest

/-- The session-tracker invariant of the spec: histories in lock step and
non-empty, the current pointer at the last history entry, and
`choices_made` one less than the history length. -/
def sessionInv (s : SessionState) : Prop :=
  s.progress.length = s.story_text.length ∧
  1 ≤ s.progress.length ∧
  s.progress.getLast? = some s.current_node ∧
  s.choices_made = (s.progress.length : Int) - 1

instance (s : SessionState) : Decidable (sessionInv s) := by
  unfold sessionInv
  exact inferInstance

/-- Python substring test `sep in s` on code-point sequences. -/
def containsSeq (sep : List Char) : List Char → Bool
  | [] => sep.isEmpty
  | c :: rest => sep.isPrefixOf (c :: rest) || containsSeq sep rest

/-- Split a code-point sequence at the first occurrence of `sep`:
`some (pre, post)` with the text before and after that occurrence, or
`none` when `sep` does not occur. -/
def splitFirst? (sep : List Char) : List Char → Option (List Char × List Char)
  | [] => if sep.isEmpty then some ([], []) else none
  | c :: rest =>
      if sep.isPrefixOf (c :: rest) then some ([], (c :: rest).drop sep.length)
      else (splitFirst? sep rest).map (fun pr => (c :: pr.1, pr.2))

/-- Python `s.split(sep)[0]`: the text before the first occurrence of
`sep`, or all of `s` when `sep` does not occur. -/
def takeUntilSeq (sep s : List Char) : List Char :=
  match splitFirst? sep s with
  | none => s
  | some pr => pr.1

/-- Python `s.strip()`: drop leading and trailing whitespace. -/
def pyStrip (s : List Char) : List Char :=
  ((s.dropWhile Char.isWhitespace).reverse.dropWhile Char.isWhitespace).reverse

/-- The achievement marker of line 490. -/
def markerL : List Char := "Achievement Unlocked:".toList

/-- The trophy delimiter of line 491. -/
def trophL : List Char := "🏆".toList

/-- The achievement-extraction snippet of the ending branch
(lines 490-491):
`if "Achievement Unlocked:" in text:` then
`text.split("Achievement Unlocked:")[1].split("🏆")[0].strip()`.
Python's `split` cuts at every occurrence of the separator, so element
`[1]` is the text after the first marker occurrence up to the next
marker occurrence (or the end); the guard `marker in text` holds exactly
when `splitFirst?` returns `some` (`splitFirst_isSome` below). -/
def detectAchievement (text : String) : Option String :=
  match splitFirst? markerL text.toList with
  | none => none
  | some pr => some (pyStrip (takeUntilSeq trophL (takeUntilSeq markerL pr.2))).asString

/-- The per-node view compared by the round-trip property: the dict key
together with the five serialised fields (`text`, `choices`, `metadata`,
`image_prompt`, `mood`), with `choices` as the ordered label list. -/
def nodeView (p : String × StoryNode) :
    String × String × List (String × String) × Meta × String × String :=
  (p.1, (Prod.snd p).text, (Prod.snd p).choices, (Prod.snd p).metadata,
    (Prod.snd p).image_prompt, (Prod.snd p).mood)

/-- Concrete two-node agent used to witness the round-trip theorem. -/
def agentC1 : EnhancedStoryAgent :=
  { story_nodes :=
      [ ("start", ⟨"start", "s", [("go", "e"), ("stay", "start")], [("k", "v")], "img", "tense"⟩)
      , ("e", ⟨"e", "the end", [], [], "", "sad"⟩) ]
  , root_id := some "start"
  , achievements := [] }

/-- Concrete agent holding a previously loaded one-node graph. -/
def agentC2 : EnhancedStoryAgent :=
  { story_nodes := [("start", ⟨"start", "hello", [], [], "", "neutral"⟩)]
  , root_id := some "start"
  , achievements := [] }

/-- Concrete agent whose start node has one choice pointing at a
non-existent node id. -/
def agentC3 : EnhancedStoryAgent :=
  { story_nodes := [("start", ⟨"start", "t0", [("go", "missing")], [], "", "neutral"⟩)]
  , root_id := some "start"
  , achievements := [] }

/-- Fresh session on `agentC3`. -/
def sessC3 : SessionState :=
  { progress := ["start"], current_node := "start", story_text := ["t0"]
  , achievements := [], choices_made := 0 }

/-- Empty agent used as the prior state of concrete loads. -/
def agentEmpty : EnhancedStoryAgent :=
  { story_nodes := [], root_id := none, achievements := [] }

/-- Concrete one-entry definition with some fields present and some absent. -/
def treeC4 : StoryTree :=
  [(PyKey.kStr "n1", PyVal.pnode ⟨some "hi", none, none, none, none, some "epic"⟩)]

/-- Concrete two-node agent with one forward choice, used to witness the
session invariant. -/
def agentC6 : EnhancedStoryAgent :=
  { story_nodes :=
      [ ("start", ⟨"start", "t0", [("go", "a")], [], "", "neutral"⟩)
      , ("a", ⟨"a", "ta", [], [], "", "calm"⟩) ]
  , root_id := some "start"
  , achievements := [] }

/-- Session at the very beginning (history of length one). -/
def sessC7a : SessionState :=
  { progress := ["a"], current_node := "a", story_text := ["x"]
  , achievements := [], choices_made := 0 }

/-- Session two steps in (history of length two). -/
def sessC7b : SessionState :=
  { progress := ["a", "b"], current_node := "b", story_text := ["x", "y"]
  , achievements := ["done"], choices_made := 1 }

/-- Concrete one-node agent used to witness choice linking. -/
def agentC9 : EnhancedStoryAgent :=
  { story_nodes := [("start", ⟨"start", "t", [("old", "start")], [], "", "neutral"⟩)]
  , root_id := some "start"
  , achievements := [] }

/-- Concrete definition keyed by the integer 7 instead of a string. -/
def treeC10 : StoryTree :=
  [(PyKey.kInt 7, PyVal.pnode ⟨some "seven", none, none, none, none, none⟩)]

/-- Looking up the key just assigned finds the assigned value. -/
theorem dictGet_insert_self {α : Type} (d : List (String × α)) (k : String) (v : α) :
    dictGet? (dictInsert d k v) k = some v := by
  induction d with
  | nil => simp [dictInsert, dictGet?]
  | cons p rest ih =>
      obtain ⟨k1, v1⟩ := p
      by_cases h : k1 = k
      · simp [dictInsert, dictGet?, h]
      · simp [dictInsert, dictGet?, h, ih]

/-- Assignment does not disturb lookups of other keys. -/
theorem dictGet_insert_ne {α : Type} (d : List (String × α)) (k k2 : String) (v : α)
    (h : k2 ≠ k) : dictGet? (dictInsert d k v) k2 = dictGet? d k2 := by
  induction d with
  | nil => simp [dictInsert, dictGet?, Ne.symm h]
  | cons p rest ih =>
      obtain ⟨k1, v1⟩ := p
      by_cases h1 : k1 = k
      · subst h1
        simp [dictInsert, dictGet?, Ne.symm h]
      · simp only [dictInsert, if_neg h1]
        by_cases h2 : k1 = k2 <;> simp [dictGet?, h2, ih]

/-- Assignment keeps the key order, appending only a genuinely new key. -/
theorem dictInsert_keys {α : Type} (d : List (String × α)) (k : String) (v : α) :
    (dictInsert d k v).map Prod.fst =
      if (dictGet? d k).isSome then d.map Prod.fst else d.map Prod.fst ++ [k] := by
  induction d with
  | nil => simp [dictInsert, dictGet?]
  | cons p rest ih =>
      obtain ⟨k1, v1⟩ := p
      by_cases h : k1 = k
      · simp [dictInsert, dictGet?, h]
      · by_cases h2 : (dictGet? rest k).isSome <;>
          simp [dictInsert, dictGet?, h, h2, ih]

/-- Assigning an absent key appends the new entry at the end. -/
theorem dictInsert_of_get_none {α : Type} (d : List (String × α)) (k : String) (v : α)
    (h : dictGet? d k = none) : dictInsert d k v = d ++ [(k, v)] := by
  induction d with
  | nil => simp [dictInsert]
  | cons p rest ih =>
      obtain ⟨k1, v1⟩ := p
      by_cases h1 : k1 = k
      · simp [dictGet?, h1] at h
      · simp [dictGet?, h1] at h
        simp [dictInsert, h1, ih h]

/-- A lookup that misses the first block of an appended dict continues in
the second block. -/
theorem dictGet_append_of_none {α : Type} (d1 d2 : List (String × α)) (k : String)
    (h : dictGet? d1 k = none) : dictGet? (d1 ++ d2) k = dictGet? d2 k := by
  induction d1 with
  | nil => simp
  | cons p rest ih =>
      obtain ⟨k1, v1⟩ := p
      by_cases h1 : k1 = k
      · simp [dictGet?, h1] at h
      · simp [dictGet?, h1] at h ⊢
        exact ih h

/-- Every entry of a dict after an assignment was already there or is the
assigned entry. -/
theorem mem_dictInsert {α : Type} (d : List (String × α)) (k : String) (v : α)
    (p : String × α) (h : p ∈ dictInsert d k v) : p ∈ d ∨ p = (k, v) := by
  induction d with
  | nil => simp [dictInsert] at h; right; exact h
  | cons q rest ih =>
      obtain ⟨k1, v1⟩ := q
      by_cases h1 : k1 = k
      · subst h1
        simp [dictInsert] at h
        rcases h with h | h
        · right; simp [h]
        · left; simp [h]
      · simp [dictInsert, h1] at h
        rcases h with h | h
        · left; simp [h]
        · rcases ih h with h2 | h2
          · left; simp [h2]
          · right; exact h2

/-- The key of a present entry looks up successfully. -/
theorem dictGet_isSome_of_mem {α : Type} (d : List (String × α)) (p : String × α)
    (h : p ∈ d) : (dictGet? d p.1).isSome = true := by
  induction d with
  | nil => simp at h
  | cons q rest ih =>
      obtain ⟨k1, v1⟩ := q
      by_cases h1 : k1 = p.1
      · simp [dictGet?, h1]
      · simp at h
        rcases h with h | h
        · rw [h] at h1; simp at h1
        · simp [dictGet?, h1, ih h]

/-- A successful lookup returns an entry of the dict. -/
theorem mem_of_dictGet_some {α : Type} (d : List (String × α)) (k : String) (v : α)
    (h : dictGet? d k = some v) : (k, v) ∈ d := by
  induction d with
  | nil => simp [dictGet?] at h
  | cons q rest ih =>
      obtain ⟨k1, v1⟩ := q
      by_cases h1 : k1 = k
      · subst h1
        simp [dictGet?] at h
        simp [h]
      · simp [dictGet?, h1] at h
        simp [ih h]

/-- Assignment preserves the presence of every key. -/
theorem dictGet_isSome_insert {α : Type} (d : List (String × α)) (k k2 : String) (v : α)
    (h : (dictGet? d k2).isSome = true) : (dictGet? (dictInsert d k v) k2).isSome = true := by
  by_cases he : k2 = k
  · subst he
    rw [dictGet_insert_self]
    rfl
  · rw [dictGet_insert_ne d k k2 v he]
    exact h

/-- Assignment never shortens a dict. -/
theorem length_le_dictInsert {α : Type} (d : List (String × α)) (k : String) (v : α) :
    d.length ≤ (dictInsert d k v).length := by
  induction d with
  | nil => simp [dictInsert]
  | cons q rest ih =>
      obtain ⟨k1, v1⟩ := q
      by_cases h1 : k1 = k <;> simp [dictInsert, h1]
      · exact ih

/-- The node-building loop preserves the presence of every key already in
the accumulator. -/
theorem loadLoop_preserves_isSome (entries : StoryTree) :
    ∀ (acc ns : List (String × StoryNode)), loadLoop acc entries = .done ns →
      ∀ k, (dictGet? acc k).isSome = true → (dictGet? ns k).isSome = true := by
  induction entries with
  | nil =>
      intro acc ns h k hk
      simp only [loadLoop, LoopRes.done.injEq] at h
      rw [← h]
      exact hk
  | cons e rest ih =>
      intro acc ns h k hk
      obtain ⟨nid, val⟩ := e
      cases val with
      | pnode n =>
          exact ih _ ns h k (dictGet_isSome_insert _ _ _ _ hk)
      | pother => simp [loadLoop] at h

/-- After a successful loop, every entry of the input definition has its
stringified key present in the rebuilt node dict. -/
theorem loadLoop_key_present (entries : StoryTree) :
    ∀ (acc ns : List (String × StoryNode)), loadLoop acc entries = .done ns →
      ∀ k v, (k, v) ∈ entries → (dictGet? ns (pyStr k)).isSome = true := by
  induction entries with
  | nil => intro acc ns _ k v hm; simp at hm
  | cons e rest ih =>
      intro acc ns h k v hm
      obtain ⟨nid, val⟩ := e
      cases val with
      | pnode n =>
          simp only [loadLoop] at h
          rcases List.mem_cons.mp hm with he | ht
          · have hself : (dictGet? (dictInsert acc (pyStr nid) (buildNode (pyStr nid) n))
                (pyStr nid)).isSome = true := by
              rw [dictGet_insert_self]
              rfl
            have hk : k = nid := by
              have := congrArg Prod.fst he
              exact this
            rw [hk]
            exact loadLoop_preserves_isSome rest _ ns h (pyStr nid) hself
          · exact ih _ ns h k v ht
      | pother => simp [loadLoop] at h

/-- The loop stores each node under its own id: the id field of every
stored node equals its dict key. -/
theorem loadLoop_id_eq_key (entries : StoryTree) :
    ∀ (acc ns : List (String × StoryNode)), loadLoop acc entries = .done ns →
      (∀ p ∈ acc, (Prod.snd p).id = p.1) → ∀ p ∈ ns, (Prod.snd p).id = p.1 := by
  induction entries with
  | nil =>
      intro acc ns h hacc
      simp only [loadLoop, LoopRes.done.injEq] at h
      rw [← h]
      exact hacc
  | cons e rest ih =>
      intro acc ns h hacc
      obtain ⟨nid, val⟩ := e
      cases val with
      | pnode n =>
          refine ih _ ns h ?_
          intro p hp
          rcases mem_dictInsert _ _ _ p hp with hin | heq
          · exact hacc p hin
          · rw [heq]
            rfl
      | pother => simp [loadLoop] at h

/-- Every node produced by a successful loop is either from the initial
accumulator or built from some map-shaped entry of the definition. -/
theorem loadLoop_mem_src (entries : StoryTree) :
    ∀ (acc ns : List (String × StoryNode)), loadLoop acc entries = .done ns →
      ∀ p ∈ ns, p ∈ acc ∨
        ∃ k d, (k, PyVal.pnode d) ∈ entries ∧ p = (pyStr k, buildNode (pyStr k) d) := by
  induction entries with
  | nil =>
      intro acc ns h p hp
      simp only [loadLoop, LoopRes.done.injEq] at h
      rw [← h] at hp
      exact Or.inl hp
  | cons e rest ih =>
      intro acc ns h p hp
      obtain ⟨nid, val⟩ := e
      cases val with
      | pnode n =>
          simp only [loadLoop] at h
          rcases ih _ ns h p hp with hin | ⟨k, d, hm, he⟩
          · rcases mem_dictInsert _ _ _ p hin with hin2 | heq
            · exact Or.inl hin2
            · exact Or.inr ⟨nid, n, List.mem_cons_self _ _, heq⟩
          · exact Or.inr ⟨k, d, List.mem_cons_of_mem _ hm, he⟩
      | pother => simp [loadLoop] at h

/-- The loop never shrinks the accumulator. -/
theorem loadLoop_length_le (entries : StoryTree) :
    ∀ (acc ns : List (String × StoryNode)), loadLoop acc entries = .done ns →
      acc.length ≤ ns.length := by
  induction entries with
  | nil =>
      intro acc ns h
      simp only [loadLoop, LoopRes.done.injEq] at h
      rw [← h]
  | cons e rest ih =>
      intro acc ns h
      obtain ⟨nid, val⟩ := e
      cases val with
      | pnode n =>
          simp only [loadLoop] at h
          exact le_trans (length_le_dictInsert _ _ _) (ih _ ns h)
      | pother => simp [loadLoop] at h

/-- Reloading the export of a dict of nodes with pairwise-distinct keys
appends, entry by entry, the rebuilt nodes to the accumulator. -/
theorem loadLoop_reload (l : List (String × StoryNode)) :
    ∀ acc : List (String × StoryNode),
      (∀ k ∈ l.map Prod.fst, dictGet? acc k = none) →
      (l.map Prod.fst).Nodup →
      loadLoop acc (l.map (fun p => (PyKey.kStr p.1, PyVal.pnode (exportNodeDef p.2)))) =
        .done (acc ++ l.map (fun p => (p.1, buildNode p.1 (exportNodeDef p.2)))) := by
  induction l with
  | nil => intro acc _ _; simp [loadLoop]
  | cons p rest ih =>
      intro acc hk hnd
      obtain ⟨k0, n0⟩ := p
      simp only [List.map_cons, loadLoop, pyStr]
      rw [dictInsert_of_get_none _ _ _ (hk k0 (by simp))]
      have hnd2 : (rest.map Prod.fst).Nodup := (List.nodup_cons.mp (by simpa using hnd)).2
      have hk0 : k0 ∉ rest.map Prod.fst := (List.nodup_cons.mp (by simpa using hnd)).1
      rw [ih (acc ++ [(k0, buildNode k0 (exportNodeDef n0))]) ?_ hnd2]
      · simp
      · intro k hkm
        have h1 : dictGet? acc k = none := hk k (by simp [hkm])
        have hne : k0 ≠ k := fun he => hk0 (he ▸ hkm)
        rw [dictGet_append_of_none _ _ _ h1]
        simp [dictGet?, hne]

/-- The first-occurrence split succeeds exactly when the separator occurs
(the Python guard `sep in s`). -/
theorem splitFirst_isSome (sep s : List Char) :
    (splitFirst? sep s).isSome = containsSeq sep s := by
  induction s with
  | nil => by_cases h : sep.isEmpty <;> simp [splitFirst?, containsSeq, h]
  | cons c rest ih =>
      by_cases h : sep.isPrefixOf (c :: rest)
      · simp [splitFirst?, containsSeq, h]
      · simp [splitFirst?, containsSeq, h, Option.isSome_map', ih]

/-- When the separator does not occur, the split finds nothing. -/
theorem splitFirst_of_not_contains (sep s : List Char) (h : containsSeq sep s = false) :
    splitFirst? sep s = none := by
  cases hs : splitFirst? sep s with
  | none => rfl
  | some pr =>
      have h2 := splitFirst_isSome sep s
      rw [hs, h] at h2
      simp at h2

/-- When the separator does not occur, `split(sep)[0]` is the whole text. -/
theorem takeUntilSeq_of_not_contains (sep s : List Char) (h : containsSeq sep s = false) :
    takeUntilSeq sep s = s := by
  unfold takeUntilSeq
  rw [splitFirst_of_not_contains sep s h]

/-- When the undo handler undoes, the history was longer than one and the
new state is the old one with the last history and text entries popped,
the counter decremented, and the current pointer at the new last entry. -/
theorem undoHandler_undone_spec (s s2 : SessionState) (h : undoHandler s = .undone s2) :
    1 < s.progress.length ∧
    s2.progress = s.progress.dropLast ∧
    s2.story_text = s.story_text.dropLast ∧
    s2.choices_made = s.choices_made - 1 ∧
    s2.achievements = s.achievements ∧
    s2.progress.getLast? = some s2.current_node := by
  unfold undoHandler at h
  by_cases hl : 1 < s.progress.length
  · rw [dif_pos hl] at h
    injection h with h
    rw [← h]
    exact ⟨hl, rfl, rfl, rfl, rfl, List.getLast?_eq_getLast _ _⟩
  · rw [dif_neg hl] at h
    simp at h

/-- When the undo handler reports "nothing to undo", the state is returned
untouched and the history was at most one long. -/
theorem undoHandler_noop_spec (s s2 : SessionState) (h : undoHandler s = .nothingToUndo s2) :
    s2 = s ∧ s.progress.length ≤ 1 := by
  unfold undoHandler at h
  by_cases hl : 1 < s.progress.length
  · rw [dif_pos hl] at h
    simp at h
  · rw [dif_neg hl] at h
    injection h with h
    exact ⟨h.symm, by omega⟩

/-- Claim C7: undo at history length 1 changes nothing and reports the
non-error "nothing to undo" outcome; undo at history length above 1
removes exactly the last entries of `progress` and `story_text`,
decrements `choices_made`, leaves `achievements` alone, and repoints
`current_node` at the new last history entry. -/
theorem c7_undo_boundary_and_pop (s : SessionState) :
    (s.progress.length = 1 → undoHandler s = .nothingToUndo s) ∧
    (1 < s.progress.length →
      ∃ s2, undoHandler s = .undone s2 ∧
        s2.progress = s.progress.dropLast ∧
        s2.story_text = s.story_text.dropLast ∧
        s2.choices_made = s.choices_made - 1 ∧
        s2.achievements = s.achievements ∧
        s2.progress.getLast? = some s2.current_node) := by
  constructor
  · intro h
    unfold undoHandler
    rw [dif_neg (by omega)]
  · intro h
    cases hu : undoHandler s with
    | nothingToUndo s2 =>
        have := (undoHandler_noop_spec s s2 hu).2
        omega
    | undone s2 =>
        obtain ⟨-, h1, h2, h3, h4, h5⟩ := undoHandler_undone_spec s s2 hu
        exact ⟨s2, rfl, h1, h2, h3, h4, h5⟩

/-- Concrete instantiation of `c7_undo_boundary_and_pop` at a length-one
session and at a length-two session. -/
theorem c7_undo_witness :
    undoHandler sessC7a = .nothingToUndo sessC7a ∧
    (∃ s2, undoHandler sessC7b = .undone s2 ∧
      s2.progress = sessC7b.progress.dropLast ∧
      s2.story_text = sessC7b.story_text.dropLast ∧
      s2.choices_made = sessC7b.choices_made - 1 ∧
      s2.achievements = sessC7b.achievements ∧
      s2.progress.getLast? = some s2.current_node) :=
  ⟨(c7_undo_boundary_and_pop sessC7a).1 rfl,
   (c7_undo_boundary_and_pop sessC7b).2 (by decide)⟩

/-- Claim C2 (code bug): loading a malformed definition over a previously
loaded graph does fail, but `load_tree` has already cleared
`self.story_nodes` (line 31) before the loop raises, so the node mapping
is NOT left as it was: the prior single-node mapping ends up empty,
while the stale root id still points at a node that no longer exists. -/
theorem c2_load_clears_prior_state :
    load_tree agentC2 [(PyKey.kStr "a", PyVal.pother)] =
      .errMalformed { story_nodes := [], root_id := some "start", achievements := [] } ∧
    agentC2.story_nodes ≠ [] := by
  constructor
  · rfl
  · decide

/-- Claim C3 (code bug): following a dangling link raises only after
`progress.append(child_id)` and `current_node = child_id` have run
(lines 534-536), so the session state is NOT left unchanged: the dangling
id is appended to `progress` and becomes `current_node`, while
`story_text` and `choices_made` keep their old values. -/
theorem c3_dangling_partial_append :
    chooseHandler agentC3 sessC3 "go" =
      .dangling { progress := ["start", "missing"], current_node := "missing"
                , story_text := ["t0"], achievements := [], choices_made := 0 } ∧
    ({ progress := ["start", "missing"], current_node := "missing"
     , story_text := ["t0"], achievements := [], choices_made := 0 } : SessionState) ≠ sessC3 := by
  constructor
  · rfl
  · decide

/-- Claim C8 (corrected): the extraction returns absent when the marker is
absent; when the marker occurs and does not occur again in the remainder,
it returns the trimmed text between the marker and the first following
trophy emoji (the whole trimmed remainder when no trophy follows, the
code's `split` keeping everything in that case); and it returns
"Keeper of the Light" on the spec's example.  When the marker occurs a
second time, the code's `split(marker)[1]` stops at the second marker
occurrence first — see `c8_double_marker_counterexample`. -/
theorem c8_detect_amended :
    (∀ t : String, containsSeq markerL t.toList = false → detectAchievement t = none) ∧
    (∀ (t : String) (pre post : List Char),
        splitFirst? markerL t.toList = some (pre, post) →
        containsSeq markerL post = false →
        detectAchievement t = some (pyStrip (takeUntilSeq trophL post)).asString) ∧
    detectAchievement "Achievement Unlocked: Keeper of the Light 🏆" =
      some "Keeper of the Light" := by
    refine ⟨?_, ?_, ?_⟩
    · intro t h
      unfold detectAchievement
      rw [splitFirst_of_not_contains _ _ h]
    · intro t pre post h h2
      unfold detectAchievement
      rw [h]
      show some (pyStrip (takeUntilSeq trophL (takeUntilSeq markerL post))).asString =
        some (pyStrip (takeUntilSeq trophL post)).asString
      rw [takeUntilSeq_of_not_contains _ _ h2]
    · rfl

/-- Claim C8, refuting instance: on a text where the marker appears twice
before the trophy, the claimed extraction rule (everything strictly
between the first marker and the following trophy, trimmed) would give
"A Achievement Unlocked: B", but the code returns only "A". -/
theorem c8_double_marker_counterexample :
    detectAchievement "Achievement Unlocked: A Achievement Unlocked: B 🏆" = some "A" ∧
    ("A" : String) ≠ "A Achievement Unlocked: B" := by
  constructor
  · rfl
  · decide

/-- Concrete instantiation of `c8_detect_amended` at a marker-free text and
at the spec's example text. -/
theorem c8_detect_witness :
    detectAchievement "no marker here" = none ∧
    detectAchievement "Achievement Unlocked: Keeper of the Light 🏆" =
      some (pyStrip (takeUntilSeq trophL " Keeper of the Light 🏆".toList)).asString :=
  ⟨c8_detect_amended.1 "no marker here" (by decide),
   c8_detect_amended.2.1 "Achievement Unlocked: Keeper of the Light 🏆"
     [] " Keeper of the Light 🏆".toList rfl (by decide)⟩

/-- Claim C9: `link_choice` fails (KeyError, the spec's `NodeNotFound`)
exactly when `from_id` is absent; on success — demanded for an arbitrary
`to_id`, existing or not — the stored node gets `label ↦ to_id`, every
other label keeps its target, label order is preserved with a new label
appended at the end, and all other nodes are untouched. -/
theorem c9_link_choice_spec (a : EnhancedStoryAgent) (from_id label to_id : String) :
    (dictGet? a.story_nodes from_id = none → link_choice a from_id label to_id = none) ∧
    (∀ node, dictGet? a.story_nodes from_id = some node →
      ∃ b, link_choice a from_id label to_id = some b ∧
        ∃ cs, dictGet? b.story_nodes from_id = some { node with choices := cs } ∧
          dictGet? cs label = some to_id ∧
          (∀ l, l ≠ label → dictGet? cs l = dictGet? node.choices l) ∧
          cs.map Prod.fst = (if (dictGet? node.choices label).isSome
              then node.choices.map Prod.fst
              else node.choices.map Prod.fst ++ [label]) ∧
          (∀ k, k ≠ from_id → dictGet? b.story_nodes k = dictGet? a.story_nodes k)) := by
  constructor
  · intro h
    unfold link_choice
    rw [h]
  · intro node h
    refine ⟨{ a with story_nodes := dictInsert a.story_nodes from_id { node with choices := dictInsert node.choices label to_id } }, ?_,
        dictInsert node.choices label to_id, ?_, dictGet_insert_self _ _ _,
        fun l hl => dictGet_insert_ne _ _ _ _ hl, dictInsert_keys _ _ _,
        fun k hk => dictGet_insert_ne _ _ _ _ hk⟩
    · simp only [link_choice, h]
    · exact dictGet_insert_self _ _ _

/-- Concrete instantiation of `c9_link_choice_spec`: linking from a missing
node fails; linking from `"start"` to the non-existent id `"nowhere"`
succeeds and records the new label after the existing one. -/
theorem c9_link_witness :
    link_choice agentC9 "ghost" "l" "t" = none ∧
    (∃ b, link_choice agentC9 "start" "lbl" "nowhere" = some b ∧
      ∃ cs, dictGet? b.story_nodes "start" =
          some { (⟨"start", "t", [("old", "start")], [], "", "neutral"⟩ : StoryNode) with choices := cs } ∧
        dictGet? cs "lbl" = some "nowhere" ∧
        (∀ l, l ≠ "lbl" → dictGet? cs l = dictGet? [("old", "start")] l) ∧
        cs.map Prod.fst = (if (dictGet? [("old", "start")] "lbl").isSome
            then [("old", "start")].map Prod.fst
            else [("old", "start")].map Prod.fst ++ ["lbl"]) ∧
        (∀ k, k ≠ "start" → dictGet? b.story_nodes k = dictGet? agentC9.story_nodes k)) :=
  ⟨(c9_link_choice_spec agentC9 "ghost" "l" "t").1 rfl,
   (c9_link_choice_spec agentC9 "start" "lbl" "nowhere").2
     ⟨"start", "t", [("old", "start")], [], "", "neutral"⟩ rfl⟩

/-- Claim C4 (amended): every node of a successfully loaded graph comes
from a map-shaped entry of the definition, with absent fields defaulted
to `choices=[]`, `metadata=[]`, `image_prompt=""`, `mood="neutral"`
(`text=""` likewise) — and the image prompt taken from the `image_prompt`
key alone, an `imagePrompt` key being ignored
(see `c4_imagePrompt_counterexample`). -/
theorem c4_load_defaults (a : EnhancedStoryAgent) (tree : StoryTree) (b : EnhancedStoryAgent)
    (h : load_tree a tree = .ok b) :
    ∀ p ∈ b.story_nodes, ∃ k d, (k, PyVal.pnode d) ∈ tree ∧
      p.1 = pyStr k ∧
      (Prod.snd p).text = d.text?.getD "" ∧
      (Prod.snd p).choices = d.choices?.getD [] ∧
      (Prod.snd p).metadata = d.metadata?.getD [] ∧
      (Prod.snd p).image_prompt = d.image_prompt?.getD "" ∧
      (Prod.snd p).mood = d.mood?.getD "neutral" := by
  unfold load_tree at h
  cases hl : loadLoop [] tree with
  | failed nodes => rw [hl] at h; simp at h
  | done nodes =>
      rw [hl] at h
      simp only [LoadRes.ok.injEq] at h
      intro p hp
      have hnodes : b.story_nodes = nodes := by rw [← h]
      rw [hnodes] at hp
      rcases loadLoop_mem_src tree [] nodes hl p hp with hin | ⟨k, d, hm, he⟩
      · simp at hin
      · refine ⟨k, d, hm, ?_, ?_, ?_, ?_, ?_, ?_⟩ <;> rw [he] <;> rfl

/-- Claim C4, refuting instance: a definition entry carrying only the key
`imagePrompt` (value `"pic"`) loads to a node whose `image_prompt` field
is the default `""`, not `"pic"` — the alternative key spelling is never
read by `load_tree`. -/
theorem c4_imagePrompt_counterexample :
    load_tree agentEmpty [(PyKey.kStr "a", PyVal.pnode ⟨none, none, none, none, some "pic", none⟩)] =
      .ok { story_nodes := [("a", ⟨"a", "", [], [], "", "neutral"⟩)]
          , root_id := some "a", achievements := [] } ∧
    ("" : String) ≠ "pic" := by
  constructor
  · rfl
  · decide

/-- Concrete instantiation of `c4_load_defaults` on `treeC4`, whose one
entry has `text` and `mood` present and every other field absent. -/
theorem c4_load_witness :
    ∃ k d, (k, PyVal.pnode d) ∈ treeC4 ∧
      "n1" = pyStr k ∧
      "hi" = d.text?.getD "" ∧
      ([] : List (String × String)) = d.choices?.getD [] ∧
      ([] : Meta) = d.metadata?.getD [] ∧
      "" = d.image_prompt?.getD "" ∧
      "epic" = d.mood?.getD "neutral" :=
  c4_load_defaults agentEmpty treeC4
    { story_nodes := [("n1", ⟨"n1", "hi", [], [], "", "epic"⟩)]
    , root_id := some "n1", achievements := [] } rfl
    ("n1", ⟨"n1", "hi", [], [], "", "epic"⟩) (by decide)


/-- Claim C5: a successful load roots the graph at `"start"` whenever the
definition has that key (wherever it sits among the other keys); a
non-empty definition without it roots at some key of the rebuilt node
mapping; an empty definition leaves no root. -/
theorem c5_root_rule (a : EnhancedStoryAgent) (tree : StoryTree) (b : EnhancedStoryAgent)
    (h : load_tree a tree = .ok b) :
    (treeHasKey tree "start" = true → b.root_id = some "start") ∧
    (treeHasKey tree "start" = false → tree ≠ [] →
      ∃ k, b.root_id = some k ∧ k ∈ b.story_nodes.map Prod.fst) ∧
    (tree = [] → b.root_id = none) := by
  unfold load_tree at h
  cases hl : loadLoop [] tree with
  | failed nodes => rw [hl] at h; simp at h
  | done nodes =>
      rw [hl] at h
      simp only [LoadRes.ok.injEq] at h
      subst h
      refine ⟨?_, ?_, ?_⟩
      · intro ht
        simp [ht]
      · intro hf hne
        have hlen : 1 ≤ nodes.length := by
          cases tree with
          | nil => exact absurd rfl hne
          | cons e rest =>
              obtain ⟨nid, val⟩ := e
              cases val with
              | pnode n =>
                  simp only [loadLoop] at hl
                  have h2 := loadLoop_length_le rest _ nodes hl
                  have h1 : 1 ≤ (dictInsert ([] : List (String × StoryNode))
                      (pyStr nid) (buildNode (pyStr nid) n)).length := by
                    simp [dictInsert]
                  omega
              | pother => simp [loadLoop] at hl
        obtain ⟨k0, v0, rest2, hn⟩ : ∃ k0 v0 rest2, nodes = (k0, v0) :: rest2 := by
          cases nodes with
          | nil => simp at hlen
          | cons p r => exact ⟨p.1, p.2, r, rfl⟩
        refine ⟨k0, ?_, ?_⟩ <;> simp [hf, hn]
      · intro ht
        subst ht
        simp only [loadLoop, LoopRes.done.injEq] at hl
        subst hl
        simp [treeHasKey]

/-- Concrete instantiation of `c5_root_rule` at three loads: a definition
with `"start"` second among its keys, a non-empty one without `"start"`,
and the empty definition. -/
theorem c5_root_witness :
    ({ story_nodes := [("x", ⟨"x", "", [], [], "", "neutral"⟩), ("start", ⟨"start", "", [], [], "", "neutral"⟩)], root_id := some "start", achievements := [] } : EnhancedStoryAgent).root_id = some "start" ∧
    (∃ k, ({ story_nodes := [("solo", ⟨"solo", "", [], [], "", "neutral"⟩)], root_id := some "solo", achievements := [] } : EnhancedStoryAgent).root_id = some k ∧ k ∈ ({ story_nodes := [("solo", ⟨"solo", "", [], [], "", "neutral"⟩)], root_id := some "solo", achievements := [] } : EnhancedStoryAgent).story_nodes.map Prod.fst) ∧
    ({ story_nodes := [], root_id := none, achievements := [] } : EnhancedStoryAgent).root_id = none :=
  ⟨(c5_root_rule agentEmpty [(PyKey.kStr "x", PyVal.pnode ⟨none, none, none, none, none, none⟩), (PyKey.kStr "start", PyVal.pnode ⟨none, none, none, none, none, none⟩)] _ rfl).1 rfl,
   (c5_root_rule agentEmpty [(PyKey.kStr "solo", PyVal.pnode ⟨none, none, none, none, none, none⟩)] _ rfl).2.1 rfl (by decide),
   (c5_root_rule agentEmpty [] _ rfl).2.2 rfl⟩

/-- Claim C10: a successful load stores every definition entry under the
string form of its key, and the stored node's own id field is that same
string — so all later `get_node` lookups go through string keys no
matter the key types of the definition. -/
theorem c10_str_keys (a : EnhancedStoryAgent) (tree : StoryTree) (b : EnhancedStoryAgent)
    (h : load_tree a tree = .ok b) (k : PyKey) (v : PyVal) (hm : (k, v) ∈ tree) :
    ∃ n, dictGet? b.story_nodes (pyStr k) = some n ∧ n.id = pyStr k := by
  unfold load_tree at h
  cases hl : loadLoop [] tree with
  | failed nodes => rw [hl] at h; simp at h
  | done nodes =>
      rw [hl] at h
      simp only [LoadRes.ok.injEq] at h
      subst h
      have hs := loadLoop_key_present tree [] nodes hl k v hm
      cases hg : dictGet? nodes (pyStr k) with
      | none => rw [hg] at hs; simp at hs
      | some n =>
          refine ⟨n, rfl, ?_⟩
          have hmem := mem_of_dictGet_some _ _ _ hg
          exact loadLoop_id_eq_key tree [] nodes hl (by intro p hp; simp at hp)
            (pyStr k, n) hmem

/-- Concrete instantiation of `c10_str_keys` on `treeC10`, whose only key
is the integer 7; the node lands under the string key `"7"`. -/
theorem c10_str_witness :
    ∃ n, dictGet? ({ story_nodes := [("7", ⟨"7", "seven", [], [], "", "neutral"⟩)], root_id := some "7", achievements := [] } : EnhancedStoryAgent).story_nodes "7" = some n ∧ n.id = "7" :=
  c10_str_keys agentEmpty treeC10
    { story_nodes := [("7", ⟨"7", "seven", [], [], "", "neutral"⟩)], root_id := some "7", achievements := [] } rfl
    (PyKey.kInt 7) (PyVal.pnode ⟨some "seven", none, none, none, none, none⟩) (by decide)


/-- Claim C1: exporting the held graph and loading the export back
succeeds and reproduces, node for node, the same keys in the same order
(hence the same id set) and the same five field values — in particular
the same ordered choice-label list.  Keys of an agent's node dict are
pairwise distinct (it is a Python dict), stated here as the `Nodup`
hypothesis. -/
theorem c1_round_trip (a : EnhancedStoryAgent)
    (hnd : (a.story_nodes.map Prod.fst).Nodup) :
    ∃ b, load_tree a (asTree (export_tree a)) = .ok b ∧
      b.story_nodes.map nodeView = a.story_nodes.map nodeView := by
  have htree : asTree (export_tree a) =
      a.story_nodes.map (fun p => (PyKey.kStr p.1, PyVal.pnode (exportNodeDef p.2))) := by
    unfold asTree export_tree
    rw [List.map_map]
    rfl
  have hloop := loadLoop_reload a.story_nodes [] (fun k _ => rfl) hnd
  cases hres : load_tree a (asTree (export_tree a)) with
  | errMalformed c =>
      unfold load_tree at hres
      rw [htree] at hres
      simp only [hloop] at hres
      exact LoadRes.noConfusion hres
  | ok b =>
      refine ⟨b, rfl, ?_⟩
      unfold load_tree at hres
      rw [htree] at hres
      simp only [hloop, LoadRes.ok.injEq] at hres
      rw [← hres]
      simp only [List.nil_append, List.map_map]
      rfl

/-- Concrete instantiation of `c1_round_trip` on the two-node `agentC1`. -/
theorem c1_round_trip_witness :
    ∃ b, load_tree agentC1 (asTree (export_tree agentC1)) = .ok b ∧
      b.story_nodes.map nodeView = agentC1.story_nodes.map nodeView :=
  c1_round_trip agentC1 (by decide)

/-- The session built by the initialisation block satisfies the tracker
invariant. -/
theorem sessionInv_init (a : EnhancedStoryAgent) (s : SessionState)
    (h : initSession a = some s) : sessionInv s := by
  unfold initSession at h
  cases hr : a.root_id with
  | none => simp [hr] at h
  | some rid =>
      simp only [hr] at h
      cases hg : get_node a rid with
      | none => simp [hg] at h
      | some root =>
          simp only [hg, Option.some.injEq] at h
          rw [← h]
          simp [sessionInv]

/-- One successful interaction preserves the tracker invariant. -/
theorem sessionInv_applyOp (a : EnhancedStoryAgent) (s s2 : SessionState) (op : SessionOp)
    (h : applyOp a s op = some s2) (hs : sessionInv s) : sessionInv s2 := by
  obtain ⟨h1, h2, h3, h4⟩ := hs
  cases op with
  | chooseOp label =>
      simp only [applyOp, chooseHandler] at h
      cases hg : get_node a s.current_node with
      | none => simp [hg] at h
      | some node =>
          simp only [hg] at h
          cases hc : dictGet? node.choices label with
          | none => simp [hc] at h
          | some child_id =>
              simp only [hc] at h
              cases hn : get_node a child_id with
              | none => simp [hn] at h
              | some child =>
                  simp only [hn, Option.some.injEq] at h
                  rw [← h]
                  refine ⟨?_, ?_, ?_, ?_⟩
                  · simp [h1]
                  · simp
                  · simp
                  · simp only [List.length_append, List.length_singleton]
                    omega
  | undoOp =>
      simp only [applyOp] at h
      cases hu : undoHandler s with
      | nothingToUndo s3 =>
          simp only [hu, Option.some.injEq] at h
          obtain ⟨he, -⟩ := undoHandler_noop_spec s s3 hu
          rw [← h, he]
          exact ⟨h1, h2, h3, h4⟩
      | undone s3 =>
          simp only [hu, Option.some.injEq] at h
          obtain ⟨hlen, hp, ht, hc, -, hcur⟩ := undoHandler_undone_spec s s3 hu
          rw [← h]
          refine ⟨?_, ?_, hcur, ?_⟩
          · rw [hp, ht, List.length_dropLast, List.length_dropLast, h1]
          · rw [hp, List.length_dropLast]
            omega
          · rw [hc, hp, List.length_dropLast]
            omega

/-- A whole sequence of successful interactions preserves the invariant. -/
theorem sessionInv_applyOps (a : EnhancedStoryAgent) :
    ∀ (ops : List SessionOp) (s s2 : SessionState),
      sessionInv s → applyOps a s ops = some s2 → sessionInv s2 := by
  intro ops
  induction ops with
  | nil =>
      intro s s2 hs h
      simp only [applyOps, Option.some.injEq] at h
      rw [← h]
      exact hs
  | cons op rest ih =>
      intro s s2 hs h
      unfold applyOps at h
      cases ha : applyOp a s op with
      | none => simp [ha] at h
      | some s3 =>
          simp only [ha] at h
          exact ih s3 s2 (sessionInv_applyOp a s s3 op ha hs) h

/-- Claim C6: after session start and any sequence of successful
choose/undo interactions, histories stay in lock step and non-empty, the
current pointer is the last history entry, and the choice counter is one
less than the history length. -/
theorem c6_history_invariant (a : EnhancedStoryAgent) (s0 s2 : SessionState)
    (ops : List SessionOp) (h0 : initSession a = some s0)
    (h : applyOps a s0 ops = some s2) : sessionInv s2 :=
  sessionInv_applyOps a ops s0 s2 (sessionInv_init a s0 h0) h

/-- Concrete instantiation of `c6_history_invariant` on `agentC6` after a
choose followed by an undo. -/
theorem c6_history_witness :
    sessionInv { progress := ["start"], current_node := "start", story_text := ["t0"], achievements := [], choices_made := 0 } :=
  c6_history_invariant agentC6
    { progress := ["start"], current_node := "start", story_text := ["t0"], achievements := [], choices_made := 0 }
    { progress := ["start"], current_node := "start", story_text := ["t0"], achievements := [], choices_made := 0 }
    [.chooseOp "go", .undoOp] rfl rfl
